import Mathlib

/-!
Verification development for the Pipefy client
(powerlibs/contrib/clients/pipefy/client.py).

The embedding translates the Python classes into explicit state passing:

* Python values that appear as dict keys, field identifiers and field
  labels are modelled by `PVal` (strings, integers, and the Python `None`
  value, which the lookup helpers return on a miss and which can itself
  be used as a dict key).
* A Python dict is modelled by `Dict`, an association list where an
  insertion prepends the binding and a lookup takes the most recent
  binding.  This matches dict get/set/contains semantics exactly; dict
  iteration order is never used by the modelled code.
* The HTTP transport is modelled by a `World` (a deterministic mapping
  from endpoints to response data, standing for a server whose responses
  are successful) together with a request log carried in the `Pipe`
  state: every network call appends one `Req` to the log.  Error
  propagation of the transport layer is modelled separately
  (`raise_for_status`, `http_request`, `get_pipe`), where responses carry
  an HTTP status and failing calls produce `Except.error`.
* The decorators `cached_property` (on `Pipe.phases`, `Pipe.cards`,
  `Phase.cards`, `Card.values`) and `lru_cache(128)` (on
  `Pipe.get_phase`) become explicit memo slots (`Option` fields) and an
  explicit bounded most-recent-first association list.
-/

namespace Pipefy

/-- A Python value as used by the client: strings, ints, or the value
`None` returned by a failed field lookup. -/
inductive PVal where
  | s (v : String)
  | n (v : Int)
  | none
deriving DecidableEq, Repr

/-- Python `str(...)` as used by `"...".format(...)` on the values above. -/
def pvalStr : PVal → String
  | PVal.s v => v
  | PVal.n v => toString v
  | PVal.none => "None"

/-- A Python dict with `PVal` keys and values. -/
abbrev Dict := List (PVal × PVal)

/-- Dict read: `d[k]` when the key is present, `Option.none` otherwise. -/
def dget (d : Dict) (k : PVal) : Option PVal :=
  match d with
  | [] => Option.none
  | p :: ps => if p.1 = k then some p.2 else dget ps k

/-- Dict write `d[k] = v`: the new binding shadows any older one. -/
def dinsert (d : Dict) (k v : PVal) : Dict := (k, v) :: d

/-- Dict membership test, Python `k in d`. -/
def dmem (d : Dict) (k : PVal) : Bool := (dget d k).isSome

/-- One field definition from a phase raw-data blob: an entry of
`phase.data["fields"]` with its "label" and "id" keys. -/
structure Field where
  label : PVal
  id : PVal
deriving DecidableEq, Repr

/-- The raw data blob of a phase (`GET /phases/{id}.json` body): its own
"id", its field definitions, and optionally an embedded list of card
stubs (each stub contributing its "id"). -/
structure PhaseData where
  id : PVal
  fields : List Field
  cards : Option (List PVal)
deriving DecidableEq, Repr

/-- One entry of a phase-detail record inside a card blob: the pair of
the field identifier key and the "value" key.  Historical records read
the identifier from the "field_id" key, the current-phase record reads
it from the "id" key; both are the first component here. -/
structure PhaseDetail where
  field_values : List (PVal × PVal)
deriving DecidableEq, Repr

/-- The raw data blob of a card: its "id", the list
"other_phase_details" of historical phase-detail records, and the
"current_phase_detail" record. -/
structure CardData where
  id : PVal
  other_phase_details : List PhaseDetail
  current_phase_detail : PhaseDetail
deriving DecidableEq, Repr

/-- The body of the card-creation POST, Python
`{"card": {"title": ..., "field_values": [{"field_id": ..., "value": ...}, ...]}}`.
Each `field_values` entry is the pair (field_id, value). -/
structure CreateCardPayload where
  title : PVal
  field_values : List (PVal × PVal)
deriving DecidableEq, Repr

/-- One transport request, as recorded in the request log. -/
inductive Req where
  | get (endpoint : String)
  | post (endpoint : String) (payload : CreateCardPayload)
deriving DecidableEq, Repr

/-- A `Card` object: identifier, raw data blob, and the
`cached_property` slot for `values`. -/
structure Card where
  identifier : PVal
  data : CardData
  valuesMemo : Option Dict
deriving DecidableEq, Repr

/-- A `Phase` object: the identifier it was fetched under, its raw data
blob (mutable: `Phase.cards` stores the fetched stub list back into
`data["cards"]`), and the `cached_property` slot for `cards`. -/
structure Phase where
  identifier : PVal
  data : PhaseData
  cardsMemo : Option (List Card)
deriving DecidableEq, Repr

/-- The remote server, assumed to answer every request successfully:
responses for `GET /phases/{id}.json`, `GET /phases/{id}/cards.json`
(a list of card stub ids), `GET /cards/{id}`, and
`POST /pipes/{id}/create_card.json`. -/
structure World where
  phaseResp : PVal → PhaseData
  phaseCardsResp : PVal → List PVal
  cardResp : PVal → CardData
  createCardResp : CreateCardPayload → CardData

/-- The mutable state of a `Pipe` object together with the transport
request log: the pipe id, the phase-id list from the pipe raw data
(`pipe.data["phases"]`, each entry contributing its "id"), the
bidirectional `_field_cache`, the `cached_property` slots for `phases`
and `cards`, the `lru_cache(128)` state of `get_phase` (most recent
first), and the log of issued requests. -/
structure Pipe where
  id : PVal
  dataPhases : List PVal
  fieldCache : Dict
  phasesMemo : Option (List Phase)
  cardsMemo : Option (List Card)
  lru : List (PVal × Phase)
  log : List Req
deriving DecidableEq, Repr

/-- A freshly constructed `Pipe` (`Pipe.__init__`): empty field cache,
no memoized properties, empty `lru_cache`, no requests issued yet. -/
def freshPipe (id : PVal) (dataPhases : List PVal) : Pipe :=
  { id := id, dataPhases := dataPhases, fieldCache := [],
    phasesMemo := Option.none, cardsMemo := Option.none, lru := [], log := [] }

/-- Lookup in the `lru_cache` state of `get_phase`. -/
def lruGet (l : List (PVal × Phase)) (k : PVal) : Option Phase :=
  (l.find? (fun p => p.1 = k)).map (fun p => p.2)

/-- Store into the `lru_cache` state: the entry moves to the front and
the cache is truncated to its capacity of 128 entries. -/
def lruPut (l : List (PVal × Phase)) (k : PVal) (v : Phase) : List (PVal × Phase) :=
  ((k, v) :: l.filter (fun p => ¬ p.1 = k)).take 128

/-- `Pipe.get_phase(phase_id)`: on an `lru_cache` hit the cached
`Phase` object is returned (and refreshed in the recency order); on a
miss `GET /phases/{phase_id}.json` is issued and the response wrapped. -/
def Pipe.get_phase (w : World) (st : Pipe) (phase_id : PVal) : Phase × Pipe :=
  match lruGet st.lru phase_id with
  | some ph => (ph, { st with lru := lruPut st.lru phase_id ph })
  | Option.none =>
      let ep := "/phases/" ++ pvalStr phase_id ++ ".json"
      let ph : Phase :=
        { identifier := phase_id, data := w.phaseResp phase_id, cardsMemo := Option.none }
      (ph, { st with lru := lruPut st.lru phase_id ph, log := st.log ++ [Req.get ep] })

/-- One step of the list comprehension inside `Pipe.phases`: fetch the
phase for one id and append it. -/
def phasesStep (w : World) (acc : List Phase × Pipe) (pid : PVal) : List Phase × Pipe :=
  let pr := Pipe.get_phase w acc.2 pid
  (acc.1 ++ [pr.1], pr.2)

/-- `Pipe.phases` (`cached_property`): on first access builds one
`Phase` per id in `pipe.data["phases"]` via `get_phase` and memoizes
the list; afterwards returns the memoized list unchanged. -/
def Pipe.phases (w : World) (st : Pipe) : List Phase × Pipe :=
  match st.phasesMemo with
  | some ps => (ps, st)
  | Option.none =>
      let r := st.dataPhases.foldl (phasesStep w) (([] : List Phase), st)
      (r.1, { r.2 with phasesMemo := some r.1 })

/-- All field definitions the pipe phases expose, in phase order then
field order: the sequence visited by the nested loops
`for phase in self.phases: for field_data in phase.data["fields"]`. -/
def allFields (phs : List Phase) : List Field :=
  phs.flatMap (fun ph => ph.data.fields)

/-- The cache-miss loop body of `get_field_id_by_label`: walks the field
definitions in order, stores both cache directions for every visited
field, and on the first field whose label matches returns the cache
entry for the queried label (as the source reads `_field_cache[label]`;
`getD` stands for the dict indexing, whose key is provably present). -/
def scanByLabel (label : PVal) : List Field → Dict → PVal × Dict
  | [], c => (PVal.none, c)
  | f :: fs, c =>
      let c2 := dinsert (dinsert c f.label f.id) f.id f.label
      if f.label = label then ((dget c2 label).getD PVal.none, c2)
      else scanByLabel label fs c2

/-- The cache-miss loop body of `get_field_label_by_id`, symmetric to
`scanByLabel` but matching on the field id. -/
def scanById (i : PVal) : List Field → Dict → PVal × Dict
  | [], c => (PVal.none, c)
  | f :: fs, c =>
      let c2 := dinsert (dinsert c f.label f.id) f.id f.label
      if f.id = i then ((dget c2 i).getD PVal.none, c2)
      else scanById i fs c2

/-- `Pipe.get_field_id_by_label(label)`: a cache hit returns the cached
value unchanged; a miss walks the phases (triggering the lazy `phases`
load), populating both cache directions, and returns `None` if the
label is nowhere found (the Python function falls off its loops). -/
def Pipe.get_field_id_by_label (w : World) (st : Pipe) (label : PVal) : PVal × Pipe :=
  match dget st.fieldCache label with
  | some v => (v, st)
  | Option.none =>
      let pr := Pipe.phases w st
      let sr := scanByLabel label (allFields pr.1) pr.2.fieldCache
      (sr.1, { pr.2 with fieldCache := sr.2 })

/-- `Pipe.get_field_label_by_id(id)`, symmetric to
`Pipe.get_field_id_by_label`. -/
def Pipe.get_field_label_by_id (w : World) (st : Pipe) (i : PVal) : PVal × Pipe :=
  match dget st.fieldCache i with
  | some v => (v, st)
  | Option.none =>
      let pr := Pipe.phases w st
      let sr := scanById i (allFields pr.1) pr.2.fieldCache
      (sr.1, { pr.2 with fieldCache := sr.2 })

/-- One step of the loop inside `Pipe.create_card`: resolve the label
of one input pair and append the resulting field-value entry. -/
def createStep (w : World) (acc : List (PVal × PVal) × Pipe) (kv : PVal × PVal) :
    List (PVal × PVal) × Pipe :=
  let fr := Pipe.get_field_id_by_label w acc.2 kv.1
  (acc.1 ++ [(fr.1, kv.2)], fr.2)

/-- `Pipe.create_card(card_title, values)`: resolves every label of the
input pairs through `get_field_id_by_label` (in order), builds the
payload, issues one `POST /pipes/{pipe.id}/create_card.json`, and wraps
the response into a `Card` whose identifier is the response "id". -/
def Pipe.create_card (w : World) (st : Pipe) (card_title : PVal)
    (values : List (PVal × PVal)) : Card × Pipe :=
  let r := values.foldl (createStep w) (([] : List (PVal × PVal)), st)
  let payload : CreateCardPayload := { title := card_title, field_values := r.1 }
  let ep := "/pipes/" ++ pvalStr st.id ++ "/create_card.json"
  let response_data := w.createCardResp payload
  ({ identifier := response_data.id, data := response_data, valuesMemo := Option.none },
   { r.2 with log := r.2.log ++ [Req.post ep payload] })

/-- One step of the card loop inside `Phase.cards`: issue
`GET /cards/{card_id}` for one stub and wrap the response. -/
def cardFetchStep (w : World) (acc : List Card × List Req) (cid : PVal) :
    List Card × List Req :=
  let ep := "/cards/" ++ pvalStr cid
  (acc.1 ++ [({ identifier := cid, data := w.cardResp cid,
                valuesMemo := Option.none } : Card)],
   acc.2 ++ [Req.get ep])

/-- `Phase.cards` (`cached_property`), acting on one `Phase` object with
the request log threaded through: if the raw data has no "cards" entry,
`GET /phases/{data["id"]}/cards.json` is issued first and its result
stored into the data blob; then every stub id is fetched individually
via `GET /cards/{card_id}` and wrapped into a `Card`. -/
def Phase.cards_compute (w : World) (ph : Phase) (log : List Req) :
    List Card × Phase × List Req :=
  match ph.cardsMemo with
  | some cs => (cs, ph, log)
  | Option.none =>
      let sr : List PVal × PhaseData × List Req :=
        match ph.data.cards with
        | some stubs => (stubs, ph.data, log)
        | Option.none =>
            let ep := "/phases/" ++ pvalStr ph.data.id ++ "/cards.json"
            let stubs := w.phaseCardsResp ph.data.id
            (stubs, { ph.data with cards := some stubs }, log ++ [Req.get ep])
      let fr := sr.1.foldl (cardFetchStep w) (([] : List Card), sr.2.2)
      (fr.1, { ph with data := sr.2.1, cardsMemo := some fr.1 }, fr.2)

/-- Access `pipe.phases[i].cards`: loads `phases` lazily, computes (or
reads) the `cards` property of the selected `Phase` object, and stores
the updated object back in place (object mutation in the source). -/
def Pipe.phase_cards (w : World) (st : Pipe) (i : Nat) : List Card × Pipe :=
  let pr := Pipe.phases w st
  match pr.1[i]? with
  | Option.none => ([], pr.2)
  | some ph =>
      let cr := Phase.cards_compute w ph pr.2.log
      (cr.1, { pr.2 with log := cr.2.2, phasesMemo := some (pr.1.set i cr.2.1) })

/-- One step of the loop inside `Pipe.cards`: compute (or read) the
`cards` of one phase and append them, keeping the updated `Phase`
object and the log. -/
def pipeCardsStep (w : World) (acc : List Card × List Phase × List Req) (ph : Phase) :
    List Card × List Phase × List Req :=
  let cr := Phase.cards_compute w ph acc.2.2
  (acc.1 ++ cr.1, acc.2.1 ++ [cr.2.1], cr.2.2)

/-- `Pipe.cards` (`cached_property`): flattens the `cards` of every
phase, phase order first, memoizing both the per-phase card lists (an
object mutation of each `Phase`) and the flattened list. -/
def Pipe.cards (w : World) (st : Pipe) : List Card × Pipe :=
  match st.cardsMemo with
  | some cs => (cs, st)
  | Option.none =>
      let pr := Pipe.phases w st
      let fr := pr.1.foldl (pipeCardsStep w) (([] : List Card), ([] : List Phase), pr.2.log)
      (fr.1, { pr.2 with log := fr.2.2, phasesMemo := some fr.2.1, cardsMemo := some fr.1 })

/-- One step of the `Card.values` loops: resolve the field identifier of
one field-value record through the owning pipe and store
`the_values[label] = value`. -/
def valStep (w : World) (acc : Dict × Pipe) (fv : PVal × PVal) : Dict × Pipe :=
  let lr := Pipe.get_field_label_by_id w acc.2 fv.1
  (dinsert acc.1 lr.1 fv.2, lr.2)

/-- The flattened historical field-value records of a card, in record
order: the sequence visited by
`for phase_details in data["other_phase_details"]: for field_value in
phase_details["field_values"]`. -/
def histFieldValues (cd : CardData) : List (PVal × PVal) :=
  cd.other_phase_details.flatMap (fun pd => pd.field_values)

/-- The body of `Card.values`: merge the field values of all historical
phase-detail records in record order, then overwrite with the
current-phase field values. -/
def Card.values_core (w : World) (st : Pipe) (cd : CardData) : Dict × Pipe :=
  let hr := cd.other_phase_details.foldl
    (fun acc pd => pd.field_values.foldl (valStep w) acc) (([] : Dict), st)
  cd.current_phase_detail.field_values.foldl (valStep w) hr

/-- Store an updated `Card` object back at position `j` of the memoized
card list of the phase at position `i` (object mutation in the source). -/
def setCard (st : Pipe) (i j : Nat) (c : Card) : Pipe :=
  match st.phasesMemo with
  | Option.none => st
  | some phs =>
      match phs[i]? with
      | Option.none => st
      | some ph =>
          match ph.cardsMemo with
          | Option.none => st
          | some cs =>
              let ph2 := { ph with cardsMemo := some (cs.set j c) }
              { st with phasesMemo := some (phs.set i ph2) }

/-- Access `pipe.phases[i].cards[j].values`: computes the `values`
mapping of the selected `Card` on first access and memoizes it on the
object; afterwards returns the memoized mapping. -/
def Pipe.card_values (w : World) (st : Pipe) (i j : Nat) : Dict × Pipe :=
  let cr := Pipe.phase_cards w st i
  match cr.1[j]? with
  | Option.none => ([], cr.2)
  | some c =>
      match c.valuesMemo with
      | some d => (d, cr.2)
      | Option.none =>
          let vr := Card.values_core w cr.2 c.data
          (vr.1, setCard vr.2 i j { c with valuesMemo := some vr.1 })

/-!  The transport layer with failing responses (`PipefyClient`). -/

/-- A raw HTTP response: status code, response text, and the decoded
pipe body (the phase-id list) for the one endpoint the modelled
operation decodes. -/
structure HttpResponse where
  status : Nat
  text : String
  jsonPhases : List PVal
deriving DecidableEq, Repr

/-- The transport world for the error-propagation model: the response
the server produces for a URL and header list. -/
def HttpWorld := String → List (String × String) → HttpResponse

/-- Python `endpoint.lstrip("/")`. -/
def lstripSlash (s : String) : String :=
  String.mk (s.data.dropWhile (fun c => c = '/'))

/-- The client configuration: `PipefyClient.__init__` keeps email, token
and base URL. -/
structure PipefyClient where
  email : String
  token : String
  base_url : String

/-- `PipefyClient.headers`: the two fixed auth headers. -/
def headers (c : PipefyClient) : List (String × String) :=
  [("X-User-Email", c.email), ("X-User-Token", c.token)]

/-- `PipefyClient.get_url`: `os.path.join(base_url, endpoint.lstrip("/"))`
for a relative second component. -/
def get_url (c : PipefyClient) (endpoint : String) : String :=
  let e := lstripSlash endpoint
  if c.base_url = "" then e
  else if c.base_url.endsWith "/" then c.base_url ++ e
  else c.base_url ++ "/" ++ e

/-- `response.raise_for_status()` of the transport library: raises an
`HTTPError` carrying the status for client errors (4xx) and server
errors (5xx), otherwise returns the response. -/
def raise_for_status (r : HttpResponse) : Except Nat HttpResponse :=
  if 400 ≤ r.status ∧ r.status < 600 then Except.error r.status else Except.ok r

/-- `PipefyClient.http_request`: perform the call against the resolved
URL with the fixed headers, then `raise_for_status`; a raised error is
logged and re-raised unchanged, so it propagates to the caller. -/
def http_request (w : HttpWorld) (c : PipefyClient) (endpoint : String) :
    Except Nat HttpResponse :=
  raise_for_status (w (get_url c endpoint) (headers c))

/-- The result of `PipefyClient.get_pipe`: a `Pipe` wrapping the decoded
response body. -/
structure PipeObj where
  id : PVal
  dataPhases : List PVal
deriving DecidableEq, Repr

/-- `PipefyClient.get_pipe(pipe_id)`: `GET /pipes/{pipe_id}.json` and
wrap the body into a `Pipe`; a transport error propagates and no pipe
object is built. -/
def get_pipe (w : HttpWorld) (c : PipefyClient) (pipe_id : PVal) : Except Nat PipeObj :=
  (http_request w c ("/pipes/" ++ pvalStr pipe_id ++ ".json")).map
    (fun r => { id := pipe_id, dataPhases := r.jsonPhases })

/-- The cache population performed by one full miss scan that never
finds its key: both directions of every field, in visit order. -/
def populate (c : Dict) (fs : List Field) : Dict :=
  fs.foldl (fun c f => dinsert (dinsert c f.label f.id) f.id f.label) c

/-!  Concrete worlds and states used by witnesses and counterexamples. -/

/-- An empty card blob, used as the default response of the sample
worlds. -/
def emptyCardData : CardData :=
  { id := PVal.n 0, other_phase_details := [],
    current_phase_detail := { field_values := [] } }

/-- A sample world whose single phase has two fields sharing the label
"A" (ids 1 and 2) followed by a field labelled "B" (id 3). -/
def wDup : World :=
  { phaseResp := fun _ =>
      { id := PVal.n 1,
        fields := [{ label := PVal.s "A", id := PVal.n 1 },
                   { label := PVal.s "A", id := PVal.n 2 },
                   { label := PVal.s "B", id := PVal.n 3 }],
        cards := Option.none },
    phaseCardsResp := fun _ => [],
    cardResp := fun _ => emptyCardData,
    createCardResp := fun _ => emptyCardData }

/-- A sample world whose single phase has a field whose id is the
string "L" and a second field whose label is that same string "L". -/
def wCol : World :=
  { phaseResp := fun _ =>
      { id := PVal.n 1,
        fields := [{ label := PVal.s "M", id := PVal.s "L" },
                   { label := PVal.s "L", id := PVal.n 9 }],
        cards := Option.none },
    phaseCardsResp := fun _ => [],
    cardResp := fun _ => emptyCardData,
    createCardResp := fun _ => emptyCardData }

/-- A sample freshly constructed pipe with one phase id. -/
def pipe0 : Pipe := freshPipe (PVal.n 5) [PVal.n 1]

/-- A sample phase object with a single field labelled "X" with id 1. -/
def phX : Phase :=
  { identifier := PVal.n 1,
    data := { id := PVal.n 1,
              fields := [{ label := PVal.s "X", id := PVal.n 1 }],
              cards := Option.none },
    cardsMemo := Option.none }

/-- A sample pipe whose phases are already loaded (one phase, field
"X" with id 1) and whose field cache is still empty. -/
def pipeLoaded : Pipe := { freshPipe (PVal.n 5) [PVal.n 1] with phasesMemo := some [phX] }

/-- A sample pipe whose field cache already resolves the id 1 to the
label "X". -/
def pipeCached1 : Pipe :=
  { freshPipe (PVal.n 5) [PVal.n 1] with fieldCache := [(PVal.n 1, PVal.s "X")] }

/-- A sample pipe whose field cache already resolves the label "Status"
to the id 42. -/
def pipeStatus : Pipe :=
  { freshPipe (PVal.n 5) [] with fieldCache := [(PVal.s "Status", PVal.n 42)] }

/-- A sample card blob carrying one historical field value for field id
1 (value "old") and one current-phase field value for the same id
(value "new"). -/
def cardOldNew : CardData :=
  { id := PVal.n 77,
    other_phase_details := [{ field_values := [(PVal.n 1, PVal.s "old")] }],
    current_phase_detail := { field_values := [(PVal.n 1, PVal.s "new")] } }

/-- A sample card blob whose field values all carry ids (97, 98, 99)
that no phase field list mentions. -/
def cardOrphan : CardData :=
  { id := PVal.n 78,
    other_phase_details := [{ field_values := [(PVal.n 97, PVal.s "h1"), (PVal.n 98, PVal.s "h2")] }],
    current_phase_detail := { field_values := [(PVal.n 99, PVal.s "c1")] } }

/-- A transport world answering every request with HTTP 500. -/
def hw500 : HttpWorld := fun _ _ => { status := 500, text := "boom", jsonPhases := [] }

/-- A sample client configuration. -/
def client0 : PipefyClient :=
  { email := "e@x", token := "t", base_url := "https://api.example.com" }

/-!  Basic dict lemmas. -/

theorem dget_dinsert_self (d : Dict) (k v : PVal) : dget (dinsert d k v) k = some v := by
  simp [dget, dinsert]

theorem dget_dinsert_ne (d : Dict) (k v q : PVal) (h : ¬ k = q) :
    dget (dinsert d k v) q = dget d q := by
  simp [dget, dinsert, h]

theorem dmem_dinsert_iff (d : Dict) (k v q : PVal) :
    dmem (dinsert d k v) q = true ↔ q = k ∨ dmem d q = true := by
  by_cases h : k = q
  · subst h
    simp [dmem, dget_dinsert_self]
  · simp only [dmem]
    rw [dget_dinsert_ne d k v q h]
    constructor
    · exact fun hq => Or.inr hq
    · rintro (hq | hq)
      · exact absurd hq.symm h
      · exact hq

theorem dmem_of_dget (d : Dict) (k v : PVal) (h : dget d k = some v) : dmem d k = true := by
  simp [dmem, h]

theorem dget_of_not_dmem (d : Dict) (k : PVal) (h : dmem d k = false) :
    dget d k = Option.none := by
  simp [dmem] at h
  exact Option.eq_none_iff_forall_not_mem.mpr (fun v hv => by simp [h] at hv)

/-!  Scan lemmas: the cache-miss loops of the two field lookups. -/

theorem scanByLabel_found (L : PVal) :
    ∀ (F : List Field) (c : Dict), (∃ f ∈ F, f.label = L) →
      ∃ m ∈ F, m.label = L ∧ (scanByLabel L F c).1 = m.id ∧
        dget (scanByLabel L F c).2 m.id = some L
  | [], _, h => by simp at h
  | f :: fs, c, h => by
      by_cases hf : f.label = L
      · refine ⟨f, by simp, hf, ?_, ?_⟩
        · simp only [scanByLabel, if_pos hf]
          by_cases hid : f.id = L
          · rw [← hid, dget_dinsert_self]
            simp
            rw [hf, hid]
          · rw [dget_dinsert_ne _ _ _ _ hid, hf, dget_dinsert_self]
            simp
        · simp only [scanByLabel, if_pos hf]
          rw [← hf, dget_dinsert_self]
      · have hfs : ∃ g ∈ fs, g.label = L := by
          rcases h with ⟨g, hg, hgl⟩
          rcases List.mem_cons.mp hg with hg1 | hg2
          · exact absurd (hg1 ▸ hgl) hf
          · exact ⟨g, hg2, hgl⟩
        rcases scanByLabel_found L fs (dinsert (dinsert c f.label f.id) f.id f.label) hfs with
          ⟨m, hm, hml, hr, hc⟩
        exact ⟨m, List.mem_cons_of_mem f hm, hml, by simp only [scanByLabel, if_neg hf]; exact hr,
          by simp only [scanByLabel, if_neg hf]; exact hc⟩

theorem scanByLabel_not_found (L : PVal) :
    ∀ (F : List Field) (c : Dict), (∀ f ∈ F, ¬ f.label = L) →
      scanByLabel L F c = (PVal.none, populate c F)
  | [], c, _ => by simp [scanByLabel, populate]
  | f :: fs, c, h => by
      have hf : ¬ f.label = L := h f (by simp)
      simp only [scanByLabel, if_neg hf]
      rw [scanByLabel_not_found L fs _ (fun g hg => h g (List.mem_cons_of_mem f hg))]
      simp [populate]

theorem scanById_not_found (I : PVal) :
    ∀ (F : List Field) (c : Dict), (∀ f ∈ F, ¬ f.id = I) →
      scanById I F c = (PVal.none, populate c F)
  | [], c, _ => by simp [scanById, populate]
  | f :: fs, c, h => by
      have hf : ¬ f.id = I := h f (by simp)
      simp only [scanById, if_neg hf]
      rw [scanById_not_found I fs _ (fun g hg => h g (List.mem_cons_of_mem f hg))]
      simp [populate]

theorem scanByLabel_monotone (L q : PVal) :
    ∀ (F : List Field) (c : Dict), dmem c q = true → dmem (scanByLabel L F c).2 q = true
  | [], c, h => by simpa [scanByLabel]
  | f :: fs, c, h => by
      have h2 : dmem (dinsert (dinsert c f.label f.id) f.id f.label) q = true :=
        (dmem_dinsert_iff _ _ _ _).mpr (Or.inr ((dmem_dinsert_iff _ _ _ _).mpr (Or.inr h)))
      by_cases hf : f.label = L
      · simpa [scanByLabel, if_pos hf] using h2
      · simp only [scanByLabel, if_neg hf]
        exact scanByLabel_monotone L q fs _ h2

theorem scanById_monotone (I q : PVal) :
    ∀ (F : List Field) (c : Dict), dmem c q = true → dmem (scanById I F c).2 q = true
  | [], c, h => by simpa [scanById]
  | f :: fs, c, h => by
      have h2 : dmem (dinsert (dinsert c f.label f.id) f.id f.label) q = true :=
        (dmem_dinsert_iff _ _ _ _).mpr (Or.inr ((dmem_dinsert_iff _ _ _ _).mpr (Or.inr h)))
      by_cases hf : f.id = I
      · simpa [scanById, if_pos hf] using h2
      · simp only [scanById, if_neg hf]
        exact scanById_monotone I q fs _ h2

theorem scanByLabel_keys (L q : PVal) :
    ∀ (F : List Field) (c : Dict), dmem (scanByLabel L F c).2 q = true →
      dmem c q = true ∨ ∃ f ∈ F, f.label = q ∨ f.id = q
  | [], c, h => Or.inl (by simpa [scanByLabel] using h)
  | f :: fs, c, h => by
      have step :
          dmem (dinsert (dinsert c f.label f.id) f.id f.label) q = true →
          dmem c q = true ∨ ∃ g ∈ f :: fs, g.label = q ∨ g.id = q := by
        intro h2
        rcases (dmem_dinsert_iff _ _ _ _).mp h2 with h3 | h3
        · exact Or.inr ⟨f, by simp, Or.inr h3.symm⟩
        · rcases (dmem_dinsert_iff _ _ _ _).mp h3 with h4 | h4
          · exact Or.inr ⟨f, by simp, Or.inl h4.symm⟩
          · exact Or.inl h4
      by_cases hf : f.label = L
      · exact step (by simpa [scanByLabel, if_pos hf] using h)
      · rcases scanByLabel_keys L q fs _ (by simpa [scanByLabel, if_neg hf] using h) with h2 | h2
        · exact step h2
        · rcases h2 with ⟨g, hg, hgq⟩
          exact Or.inr ⟨g, List.mem_cons_of_mem f hg, hgq⟩

/-!  Generic fold and list helpers. -/

theorem foldl_preserves {α β : Type} (P : β → Prop) (f : β → α → β)
    (hf : ∀ b a, P b → P (f b a)) : ∀ (l : List α) (b : β), P b → P (l.foldl f b)
  | [], _, hb => hb
  | a :: l, b, hb => foldl_preserves P f hf l (f b a) (hf b a hb)

theorem foldl_flatMap {α β γ : Type} (g : α → List γ) (f : β → γ → β) :
    ∀ (l : List α) (b : β),
      l.foldl (fun b a => (g a).foldl f b) b = (l.flatMap g).foldl f b
  | [], _ => rfl
  | a :: l, b => by
      rw [List.flatMap_cons, List.foldl_append]
      exact foldl_flatMap g f l _

theorem set_getElem?_self {α : Type} :
    ∀ (l : List α) (i : Nat) (a : α), l[i]? = some a → l.set i a = l
  | [], _, _, h => by simp at h
  | x :: t, 0, a, h => by
      simp at h
      simp [List.set, h]
  | x :: t, Nat.succ n, a, h => by
      simp at h
      simp [List.set, set_getElem?_self t n a h]

theorem scanById_keys (I q : PVal) :
    ∀ (F : List Field) (c : Dict), dmem (scanById I F c).2 q = true →
      dmem c q = true ∨ ∃ f ∈ F, f.label = q ∨ f.id = q
  | [], c, h => Or.inl (by simpa [scanById] using h)
  | f :: fs, c, h => by
      have step :
          dmem (dinsert (dinsert c f.label f.id) f.id f.label) q = true →
          dmem c q = true ∨ ∃ g ∈ f :: fs, g.label = q ∨ g.id = q := by
        intro h2
        rcases (dmem_dinsert_iff _ _ _ _).mp h2 with h3 | h3
        · exact Or.inr ⟨f, by simp, Or.inr h3.symm⟩
        · rcases (dmem_dinsert_iff _ _ _ _).mp h3 with h4 | h4
          · exact Or.inr ⟨f, by simp, Or.inl h4.symm⟩
          · exact Or.inl h4
      by_cases hf : f.id = I
      · exact step (by simpa [scanById, if_pos hf] using h)
      · rcases scanById_keys I q fs _ (by simpa [scanById, if_neg hf] using h) with h2 | h2
        · exact step h2
        · rcases h2 with ⟨g, hg, hgq⟩
          exact Or.inr ⟨g, List.mem_cons_of_mem f hg, hgq⟩

/-!  Record update helpers (structure eta). -/

theorem pipe_upd_phasesMemo (st : Pipe) (x : Option (List Phase))
    (h : st.phasesMemo = x) : { st with phasesMemo := x } = st := by
  cases st
  subst h
  rfl

theorem pipe_upd_fieldCache (st : Pipe) (c : Dict)
    (h : st.fieldCache = c) : { st with fieldCache := c } = st := by
  cases st
  subst h
  rfl

theorem pipe_upd_log_phasesMemo (st : Pipe) (lg : List Req) (x : Option (List Phase))
    (h1 : st.log = lg) (h2 : st.phasesMemo = x) :
    { st with log := lg, phasesMemo := x } = st := by
  cases st
  subst h1
  subst h2
  rfl

/-!  Lemmas about `get_phase` and the lazy `phases` property. -/

theorem lruGet_lruPut_none (l : List (PVal × Phase)) (k q : PVal) (v : Phase)
    (h : lruGet l q = Option.none) (hne : ¬ q = k) :
    lruGet (lruPut l k v) q = Option.none := by
  simp only [lruGet, Option.map_eq_none', List.find?_eq_none, decide_eq_true_eq] at h ⊢
  intro p hp
  have hp' := List.mem_of_mem_take hp
  rcases List.mem_cons.mp hp' with rfl | hp''
  · exact fun hq => hne hq.symm
  · exact h p (List.mem_of_mem_filter hp'')

theorem get_phase_state (w : World) (st : Pipe) (pid : PVal) :
    (Pipe.get_phase w st pid).2.fieldCache = st.fieldCache ∧
    (Pipe.get_phase w st pid).2.id = st.id ∧
    (Pipe.get_phase w st pid).2.dataPhases = st.dataPhases ∧
    (Pipe.get_phase w st pid).2.cardsMemo = st.cardsMemo ∧
    (Pipe.get_phase w st pid).2.phasesMemo = st.phasesMemo := by
  cases h : lruGet st.lru pid <;> simp [Pipe.get_phase, h]

theorem phases_loaded (w : World) (st : Pipe) (ps : List Phase)
    (h : st.phasesMemo = some ps) : Pipe.phases w st = (ps, st) := by
  simp [Pipe.phases, h]

theorem phases_memo_after (w : World) (st : Pipe) :
    (Pipe.phases w st).2.phasesMemo = some (Pipe.phases w st).1 := by
  cases h : st.phasesMemo <;> simp [Pipe.phases, h]

theorem phases_idem (w : World) (st : Pipe) :
    Pipe.phases w (Pipe.phases w st).2 = ((Pipe.phases w st).1, (Pipe.phases w st).2) :=
  phases_loaded w _ _ (phases_memo_after w st)

theorem phases_state (w : World) (st : Pipe) :
    (Pipe.phases w st).2.fieldCache = st.fieldCache ∧
    (Pipe.phases w st).2.id = st.id ∧
    (Pipe.phases w st).2.dataPhases = st.dataPhases ∧
    (Pipe.phases w st).2.cardsMemo = st.cardsMemo := by
  cases h : st.phasesMemo with
  | some ps => simp [Pipe.phases, h]
  | none =>
      have hfold := foldl_preserves
        (fun acc : List Phase × Pipe => acc.2.fieldCache = st.fieldCache ∧
          acc.2.id = st.id ∧ acc.2.dataPhases = st.dataPhases ∧
          acc.2.cardsMemo = st.cardsMemo)
        (phasesStep w)
        (fun b a hb => by
          rcases get_phase_state w b.2 a with ⟨g1, g2, g3, g4, _⟩
          exact ⟨g1.trans hb.1, g2.trans hb.2.1, g3.trans hb.2.2.1, g4.trans hb.2.2.2⟩)
        st.dataPhases (([], st)) ⟨rfl, rfl, rfl, rfl⟩
      simp only [Pipe.phases, h]
      exact hfold

theorem phases_fold_log (w : World) :
    ∀ (l : List PVal) (acc : List Phase) (s : Pipe),
      (∀ pid ∈ l, lruGet s.lru pid = Option.none) → l.Nodup →
      (l.foldl (phasesStep w) (acc, s)).2.log =
        s.log ++ l.map (fun pid => Req.get ("/phases/" ++ pvalStr pid ++ ".json"))
  | [], acc, s, _, _ => by simp
  | pid :: t, acc, s, hmiss, hnd => by
      have hm : lruGet s.lru pid = Option.none := hmiss pid (by simp)
      have hstep : phasesStep w (acc, s) pid =
          (acc ++ [(Pipe.get_phase w s pid).1],
           { s with lru := lruPut s.lru pid (Pipe.get_phase w s pid).1,
                    log := s.log ++ [Req.get ("/phases/" ++ pvalStr pid ++ ".json")] }) := by
        simp [phasesStep, Pipe.get_phase, hm]
      have hnotmem : pid ∉ t := (List.nodup_cons.mp hnd).1
      rw [List.foldl_cons, hstep,
        phases_fold_log w t _ _
          (fun p hp => lruGet_lruPut_none _ _ _ _ (hmiss p (List.mem_cons_of_mem pid hp))
            (fun he => hnotmem (by rw [← he]; exact hp)))
          (List.nodup_cons.mp hnd).2]
      simp

/-- From a state whose `phases` memo is unset, whose `get_phase` cache
is empty and whose phase ids are distinct, loading `phases` issues
exactly the phase requests, in order. -/
theorem phases_fresh_log (w : World) (st : Pipe)
    (h1 : st.phasesMemo = Option.none) (h2 : st.lru = [])
    (hnd : st.dataPhases.Nodup) :
    (Pipe.phases w st).2.log =
      st.log ++ st.dataPhases.map (fun pid => Req.get ("/phases/" ++ pvalStr pid ++ ".json")) := by
  simp only [Pipe.phases, h1]
  exact phases_fold_log w st.dataPhases [] st (fun pid _ => by simp [h2, lruGet]) hnd

/-!  Lemmas about the two field lookups. -/

theorem lookupLabel_hit (w : World) (st : Pipe) (k v : PVal)
    (h : dget st.fieldCache k = some v) :
    Pipe.get_field_id_by_label w st k = (v, st) := by
  simp [Pipe.get_field_id_by_label, h]

theorem lookupId_hit (w : World) (st : Pipe) (k v : PVal)
    (h : dget st.fieldCache k = some v) :
    Pipe.get_field_label_by_id w st k = (v, st) := by
  simp [Pipe.get_field_label_by_id, h]

theorem lookupLabel_miss (w : World) (st : Pipe) (k : PVal)
    (h : dget st.fieldCache k = Option.none) :
    Pipe.get_field_id_by_label w st k =
      ((scanByLabel k (allFields (Pipe.phases w st).1) (Pipe.phases w st).2.fieldCache).1,
       { (Pipe.phases w st).2 with
           fieldCache :=
             (scanByLabel k (allFields (Pipe.phases w st).1) (Pipe.phases w st).2.fieldCache).2 }) := by
  simp [Pipe.get_field_id_by_label, h]

theorem lookupId_miss (w : World) (st : Pipe) (k : PVal)
    (h : dget st.fieldCache k = Option.none) :
    Pipe.get_field_label_by_id w st k =
      ((scanById k (allFields (Pipe.phases w st).1) (Pipe.phases w st).2.fieldCache).1,
       { (Pipe.phases w st).2 with
           fieldCache :=
             (scanById k (allFields (Pipe.phases w st).1) (Pipe.phases w st).2.fieldCache).2 }) := by
  simp [Pipe.get_field_label_by_id, h]

theorem lookupLabel_loaded_miss (w : World) (st : Pipe) (phs : List Phase) (k : PVal)
    (hl : st.phasesMemo = some phs) (h : dget st.fieldCache k = Option.none) :
    Pipe.get_field_id_by_label w st k =
      ((scanByLabel k (allFields phs) st.fieldCache).1,
       { st with fieldCache := (scanByLabel k (allFields phs) st.fieldCache).2 }) := by
  rw [lookupLabel_miss w st k h, phases_loaded w st phs hl]

theorem lookupId_loaded_miss (w : World) (st : Pipe) (phs : List Phase) (k : PVal)
    (hl : st.phasesMemo = some phs) (h : dget st.fieldCache k = Option.none) :
    Pipe.get_field_label_by_id w st k =
      ((scanById k (allFields phs) st.fieldCache).1,
       { st with fieldCache := (scanById k (allFields phs) st.fieldCache).2 }) := by
  rw [lookupId_miss w st k h, phases_loaded w st phs hl]

theorem lookupLabel_loaded_shape (w : World) (st : Pipe) (phs : List Phase) (k : PVal)
    (hl : st.phasesMemo = some phs) :
    ∃ c : Dict, (Pipe.get_field_id_by_label w st k).2 = { st with fieldCache := c } := by
  cases h : dget st.fieldCache k with
  | some v =>
      exact ⟨st.fieldCache, by rw [lookupLabel_hit w st k v h, pipe_upd_fieldCache st _ rfl]⟩
  | none =>
      exact ⟨_, by rw [lookupLabel_loaded_miss w st phs k hl h]⟩

theorem lookupId_loaded_shape (w : World) (st : Pipe) (phs : List Phase) (k : PVal)
    (hl : st.phasesMemo = some phs) :
    ∃ c : Dict, (Pipe.get_field_label_by_id w st k).2 = { st with fieldCache := c } := by
  cases h : dget st.fieldCache k with
  | some v =>
      exact ⟨st.fieldCache, by rw [lookupId_hit w st k v h, pipe_upd_fieldCache st _ rfl]⟩
  | none =>
      exact ⟨_, by rw [lookupId_loaded_miss w st phs k hl h]⟩

theorem lookupLabel_monotone (w : World) (st : Pipe) (k q : PVal)
    (h : dmem st.fieldCache q = true) :
    dmem (Pipe.get_field_id_by_label w st k).2.fieldCache q = true := by
  cases hg : dget st.fieldCache k with
  | some v => rw [lookupLabel_hit w st k v hg]; exact h
  | none =>
      rw [lookupLabel_miss w st k hg]
      exact scanByLabel_monotone k q _ _ (by rw [(phases_state w st).1]; exact h)

theorem lookupId_monotone (w : World) (st : Pipe) (k q : PVal)
    (h : dmem st.fieldCache q = true) :
    dmem (Pipe.get_field_label_by_id w st k).2.fieldCache q = true := by
  cases hg : dget st.fieldCache k with
  | some v => rw [lookupId_hit w st k v hg]; exact h
  | none =>
      rw [lookupId_miss w st k hg]
      exact scanById_monotone k q _ _ (by rw [(phases_state w st).1]; exact h)

theorem lookupLabel_loaded_keys (w : World) (st : Pipe) (phs : List Phase) (k q : PVal)
    (hl : st.phasesMemo = some phs)
    (h : dmem (Pipe.get_field_id_by_label w st k).2.fieldCache q = true) :
    dmem st.fieldCache q = true ∨ ∃ f ∈ allFields phs, f.label = q ∨ f.id = q := by
  cases hg : dget st.fieldCache k with
  | some v => rw [lookupLabel_hit w st k v hg] at h; exact Or.inl h
  | none =>
      rw [lookupLabel_loaded_miss w st phs k hl hg] at h
      exact scanByLabel_keys k q _ _ h

theorem lookupId_loaded_keys (w : World) (st : Pipe) (phs : List Phase) (k q : PVal)
    (hl : st.phasesMemo = some phs)
    (h : dmem (Pipe.get_field_label_by_id w st k).2.fieldCache q = true) :
    dmem st.fieldCache q = true ∨ ∃ f ∈ allFields phs, f.label = q ∨ f.id = q := by
  cases hg : dget st.fieldCache k with
  | some v => rw [lookupId_hit w st k v hg] at h; exact Or.inl h
  | none =>
      rw [lookupId_loaded_miss w st phs k hl hg] at h
      exact scanById_keys k q _ _ h

/-!  Lemmas about `Card.values_core`. -/

theorem values_core_eq (w : World) (st : Pipe) (cd : CardData) :
    Card.values_core w st cd =
      (histFieldValues cd ++ cd.current_phase_detail.field_values).foldl
        (valStep w) (([] : Dict), st) := by
  simp only [Card.values_core, histFieldValues]
  rw [List.foldl_append]
  rw [← foldl_flatMap (fun pd : PhaseDetail => pd.field_values) (valStep w)]

theorem valStep_cached (w : World) (d : Dict) (st : Pipe) (fv : PVal × PVal)
    (h : (dget st.fieldCache fv.1).isSome = true) :
    valStep w (d, st) fv =
      (dinsert d ((dget st.fieldCache fv.1).getD PVal.none) fv.2, st) := by
  rcases Option.isSome_iff_exists.mp h with ⟨v, hv⟩
  simp [valStep, lookupId_hit w st fv.1 v hv, hv]

theorem values_fold_cached (w : World) (st : Pipe) :
    ∀ (ps : List (PVal × PVal)) (d : Dict),
      (∀ fv ∈ ps, (dget st.fieldCache fv.1).isSome = true) →
      ps.foldl (valStep w) (d, st) =
        (ps.foldl (fun d fv => dinsert d ((dget st.fieldCache fv.1).getD PVal.none) fv.2) d,
         st)
  | [], _, _ => rfl
  | fv :: ps, d, h => by
      rw [List.foldl_cons, valStep_cached w d st fv (h fv (by simp)), List.foldl_cons]
      exact values_fold_cached w st ps _ (fun x hx => h x (List.mem_cons_of_mem fv hx))

theorem values_core_monotone (w : World) (st : Pipe) (cd : CardData) (q : PVal)
    (h : dmem st.fieldCache q = true) :
    dmem (Card.values_core w st cd).2.fieldCache q = true := by
  rw [values_core_eq]
  exact foldl_preserves (fun acc : Dict × Pipe => dmem acc.2.fieldCache q = true)
    (valStep w) (fun b fv hb => lookupId_monotone w b.2 fv.1 q hb) _ ([], st) h

theorem values_core_loaded_shape (w : World) (st : Pipe) (phs : List Phase) (cd : CardData)
    (hl : st.phasesMemo = some phs) :
    ∃ c : Dict, (Card.values_core w st cd).2 = { st with fieldCache := c } := by
  rw [values_core_eq]
  exact foldl_preserves
    (fun acc : Dict × Pipe => ∃ c : Dict, acc.2 = { st with fieldCache := c })
    (valStep w)
    (fun b fv hb => by
      rcases hb with ⟨c, hc⟩
      rcases lookupId_loaded_shape w b.2 phs fv.1 (by rw [hc]; exact hl) with ⟨c2, hc2⟩
      exact ⟨c2, by show (Pipe.get_field_label_by_id w b.2 fv.1).2 = _; rw [hc2, hc]⟩)
    _ ([], st) ⟨st.fieldCache, (pipe_upd_fieldCache st _ rfl).symm⟩

/-!  Dict-level lemmas for the pure insert folds. -/

theorem dget_insfold_not_mem (lab : PVal → PVal) :
    ∀ (ps : List (PVal × PVal)) (d : Dict) (ℓ : PVal),
      (∀ fv ∈ ps, ¬ lab fv.1 = ℓ) →
      dget (ps.foldl (fun d fv => dinsert d (lab fv.1) fv.2) d) ℓ = dget d ℓ
  | [], _, _, _ => rfl
  | fv :: ps, d, ℓ, h => by
      rw [List.foldl_cons,
        dget_insfold_not_mem lab ps _ ℓ (fun x hx => h x (List.mem_cons_of_mem fv hx)),
        dget_dinsert_ne _ _ _ _ (h fv (by simp))]

theorem dget_insfold_agree (lab : PVal → PVal) :
    ∀ (ps : List (PVal × PVal)) (d : Dict) (ℓ v : PVal),
      (∃ fv ∈ ps, lab fv.1 = ℓ) →
      (∀ fv ∈ ps, lab fv.1 = ℓ → fv.2 = v) →
      dget (ps.foldl (fun d fv => dinsert d (lab fv.1) fv.2) d) ℓ = some v
  | [], _, _, _, hex, _ => by simp at hex
  | fv :: ps, d, ℓ, v, hex, hag => by
      by_cases htail : ∃ x ∈ ps, lab x.1 = ℓ
      · rw [List.foldl_cons]
        exact dget_insfold_agree lab ps _ ℓ v htail
          (fun x hx => hag x (List.mem_cons_of_mem fv hx))
      · have hfv : lab fv.1 = ℓ := by
          rcases hex with ⟨x, hx, hxl⟩
          rcases List.mem_cons.mp hx with rfl | hx2
          · exact hxl
          · exact absurd ⟨x, hx2, hxl⟩ htail
        rw [List.foldl_cons,
          dget_insfold_not_mem lab ps _ ℓ (fun x hx hxl => htail ⟨x, hx, hxl⟩),
          hfv, dget_dinsert_self, hag fv (by simp) hfv]

/-!  Lemmas about `create_card`. -/

theorem create_fold_cached (w : World) (st : Pipe) :
    ∀ (l : List (PVal × PVal)) (acc : List (PVal × PVal)),
      (∀ kv ∈ l, (dget st.fieldCache kv.1).isSome = true) →
      l.foldl (createStep w) (acc, st) =
        (acc ++ l.map (fun kv => ((dget st.fieldCache kv.1).getD PVal.none, kv.2)), st)
  | [], _, _ => by simp
  | kv :: l, acc, h => by
      rcases Option.isSome_iff_exists.mp (h kv (by simp)) with ⟨v, hv⟩
      have hstep : createStep w (acc, st) kv = (acc ++ [(v, kv.2)], st) := by
        simp [createStep, lookupLabel_hit w st kv.1 v hv]
      rw [List.foldl_cons, hstep,
        create_fold_cached w st l _ (fun x hx => h x (List.mem_cons_of_mem kv hx))]
      simp [hv]

theorem create_card_monotone (w : World) (st : Pipe) (t : PVal)
    (vs : List (PVal × PVal)) (q : PVal) (h : dmem st.fieldCache q = true) :
    dmem (Pipe.create_card w st t vs).2.fieldCache q = true := by
  have hf := foldl_preserves
    (fun acc : List (PVal × PVal) × Pipe => dmem acc.2.fieldCache q = true)
    (createStep w) (fun b kv hb => lookupLabel_monotone w b.2 kv.1 q hb) vs ([], st) h
  simpa [Pipe.create_card] using hf

/-!  Lemmas about the lazy card collections. -/

theorem cards_compute_loaded (w : World) (ph : Phase) (log : List Req) (cs : List Card)
    (h : ph.cardsMemo = some cs) : Phase.cards_compute w ph log = (cs, ph, log) := by
  simp [Phase.cards_compute, h]

theorem cards_compute_memo_after (w : World) (ph : Phase) (log : List Req) :
    (Phase.cards_compute w ph log).2.1.cardsMemo = some (Phase.cards_compute w ph log).1 := by
  cases h : ph.cardsMemo with
  | some cs => simp [Phase.cards_compute, h]
  | none => cases hc : ph.data.cards <;> simp [Phase.cards_compute, h, hc]

theorem cards_memo_after (w : World) (st : Pipe) :
    (Pipe.cards w st).2.cardsMemo = some (Pipe.cards w st).1 := by
  cases h : st.cardsMemo <;> simp [Pipe.cards, h]

theorem cards_loaded (w : World) (st : Pipe) (cs : List Card)
    (h : st.cardsMemo = some cs) : Pipe.cards w st = (cs, st) := by
  simp [Pipe.cards, h]

theorem cards_fieldCache (w : World) (st : Pipe) :
    (Pipe.cards w st).2.fieldCache = st.fieldCache := by
  cases h : st.cardsMemo <;> simp [Pipe.cards, h, (phases_state w st).1]

theorem phase_cards_fieldCache (w : World) (st : Pipe) (i : Nat) :
    (Pipe.phase_cards w st i).2.fieldCache = st.fieldCache := by
  cases hj : (Pipe.phases w st).1[i]? <;>
    simp [Pipe.phase_cards, hj, (phases_state w st).1]

theorem setCard_fieldCache (st : Pipe) (i j : Nat) (c : Card) :
    (setCard st i j c).fieldCache = st.fieldCache := by
  cases h1 : st.phasesMemo with
  | none => simp [setCard, h1]
  | some phs =>
      cases h2 : phs[i]? with
      | none => simp [setCard, h1, h2]
      | some ph =>
          cases h3 : ph.cardsMemo <;> simp [setCard, h1, h2, h3]

theorem phase_cards_loaded (w : World) (st : Pipe) (i : Nat) (phs : List Phase)
    (ph : Phase) (cs : List Card)
    (hl : st.phasesMemo = some phs) (hj : phs[i]? = some ph)
    (hc : ph.cardsMemo = some cs) :
    Pipe.phase_cards w st i = (cs, { st with phasesMemo := some (phs.set i ph) }) := by
  simp only [Pipe.phase_cards]
  rw [phases_loaded w st phs hl]
  simp only [hj]
  rw [cards_compute_loaded w ph st.log cs hc]

theorem phase_cards_loaded_self (w : World) (st : Pipe) (i : Nat) (phs : List Phase)
    (ph : Phase) (cs : List Card)
    (hl : st.phasesMemo = some phs) (hj : phs[i]? = some ph)
    (hc : ph.cardsMemo = some cs) :
    Pipe.phase_cards w st i = (cs, st) := by
  rw [phase_cards_loaded w st i phs ph cs hl hj hc, set_getElem?_self phs i ph hj,
    pipe_upd_phasesMemo st _ hl]

theorem phase_cards_loaded_none (w : World) (st : Pipe) (i : Nat) (phs : List Phase)
    (hl : st.phasesMemo = some phs) (hj : phs[i]? = Option.none) :
    Pipe.phase_cards w st i = ([], st) := by
  simp [Pipe.phase_cards, phases_loaded w st phs hl, hj]

theorem phase_cards_idem (w : World) (st : Pipe) (i : Nat) :
    Pipe.phase_cards w (Pipe.phase_cards w st i).2 i =
      ((Pipe.phase_cards w st i).1, (Pipe.phase_cards w st i).2) := by
  cases hj : (Pipe.phases w st).1[i]? with
  | none =>
      have h1 : Pipe.phase_cards w st i = ([], (Pipe.phases w st).2) := by
        simp [Pipe.phase_cards, hj]
      rw [h1]
      exact phase_cards_loaded_none w _ i (Pipe.phases w st).1 (phases_memo_after w st) hj
  | some ph =>
      have hlt : i < (Pipe.phases w st).1.length := by
        rcases List.getElem?_eq_some.mp hj with ⟨hl, _⟩
        exact hl
      have h1 : Pipe.phase_cards w st i =
          ((Phase.cards_compute w ph (Pipe.phases w st).2.log).1,
           { (Pipe.phases w st).2 with
               log := (Phase.cards_compute w ph (Pipe.phases w st).2.log).2.2,
               phasesMemo := some ((Pipe.phases w st).1.set i
                 (Phase.cards_compute w ph (Pipe.phases w st).2.log).2.1) }) := by
        simp [Pipe.phase_cards, hj]
      rw [h1]
      exact phase_cards_loaded_self w _ i _ _ _ rfl
        (by simp [List.getElem?_set, hlt])
        (cards_compute_memo_after w ph _)

theorem card_values_idem (w : World) (st : Pipe) (i j : Nat) :
    Pipe.card_values w (Pipe.card_values w st i j).2 i j =
      ((Pipe.card_values w st i j).1, (Pipe.card_values w st i j).2) := by
  cases hj0 : (Pipe.phase_cards w st i).1[j]? with
  | none =>
      have h1 : Pipe.card_values w st i j = ([], (Pipe.phase_cards w st i).2) := by
        simp [Pipe.card_values, hj0]
      rw [h1]
      simp [Pipe.card_values, phase_cards_idem w st i, hj0]
  | some c =>
      cases hv : c.valuesMemo with
      | some d =>
          have h1 : Pipe.card_values w st i j = (d, (Pipe.phase_cards w st i).2) := by
            simp [Pipe.card_values, hj0, hv]
          rw [h1]
          simp [Pipe.card_values, phase_cards_idem w st i, hj0, hv]
      | none =>
          cases hpj : (Pipe.phases w st).1[i]? with
          | none =>
              exfalso
              have hpc : Pipe.phase_cards w st i = ([], (Pipe.phases w st).2) := by
                simp [Pipe.phase_cards, hpj]
              rw [hpc] at hj0
              simp at hj0
          | some ph =>
              have hlt : i < (Pipe.phases w st).1.length := by
                rcases List.getElem?_eq_some.mp hpj with ⟨hl, _⟩
                exact hl
              obtain ⟨T, hT1, hTmemo⟩ : ∃ T : List Card × Phase × List Req,
                  Pipe.phase_cards w st i =
                    (T.1, { (Pipe.phases w st).2 with log := T.2.2, phasesMemo := some ((Pipe.phases w st).1.set i T.2.1) }) ∧
                  T.2.1.cardsMemo = some T.1 :=
                ⟨Phase.cards_compute w ph (Pipe.phases w st).2.log,
                 by simp [Pipe.phase_cards, hpj], cards_compute_memo_after w ph _⟩
              obtain ⟨SS, hSS, hSSmemo⟩ : ∃ SS : Pipe,
                  Pipe.phase_cards w st i = (T.1, SS) ∧
                  SS.phasesMemo = some ((Pipe.phases w st).1.set i T.2.1) :=
                ⟨_, hT1, rfl⟩
              rw [hSS] at hj0
              simp only [] at hj0
              rcases List.getElem?_eq_some.mp hj0 with ⟨hjlt, _⟩
              obtain ⟨V, hV⟩ : ∃ V : Dict × Pipe, Card.values_core w SS c.data = V := ⟨_, rfl⟩
              obtain ⟨cx, hcx⟩ := values_core_loaded_shape w SS _ c.data hSSmemo
              rw [hV] at hcx
              have hVm : V.2.phasesMemo = some ((Pipe.phases w st).1.set i T.2.1) := by
                rw [hcx]
                exact hSSmemo
              obtain ⟨cp, hcp, hcpm⟩ : ∃ cp : Card,
                  ({ c with valuesMemo := some V.1 } : Card) = cp ∧
                  cp.valuesMemo = some V.1 := ⟨_, rfl, rfl⟩
              have h2 : Pipe.card_values w st i j = (V.1, setCard V.2 i j cp) := by
                simp [Pipe.card_values, hSS, hj0, hv, hV, hcp]
              obtain ⟨ph3, hph3, hph3m⟩ : ∃ ph3 : Phase,
                  ({ T.2.1 with cardsMemo := some (T.1.set j cp) } : Phase) = ph3 ∧
                  ph3.cardsMemo = some (T.1.set j cp) := ⟨_, rfl, rfl⟩
              have hidx : ((Pipe.phases w st).1.set i T.2.1)[i]? = some T.2.1 := by
                simp [List.getElem?_set, hlt]
              have hs2eq : setCard V.2 i j cp =
                  { V.2 with phasesMemo := some (((Pipe.phases w st).1.set i T.2.1).set i ph3) } := by
                simp [setCard, hVm, hidx, hTmemo, hph3]
              obtain ⟨s2, hs2, hs2m⟩ : ∃ s2 : Pipe,
                  setCard V.2 i j cp = s2 ∧
                  s2.phasesMemo = some (((Pipe.phases w st).1.set i T.2.1).set i ph3) :=
                ⟨_, hs2eq, rfl⟩
              have hidx2 : (((Pipe.phases w st).1.set i T.2.1).set i ph3)[i]? = some ph3 := by
                simp [List.getElem?_set, hlt]
              have hpc2 : Pipe.phase_cards w s2 i = (T.1.set j cp, s2) :=
                phase_cards_loaded_self w s2 i _ ph3 (T.1.set j cp) hs2m hidx2 hph3m
              have hcj2 : (T.1.set j cp)[j]? = some cp := by
                simp [List.getElem?_set, hjlt]
              rw [h2, hs2]
              simp [Pipe.card_values, hpc2, hcj2, hcpm]

theorem cards_idem (w : World) (st : Pipe) :
    Pipe.cards w (Pipe.cards w st).2 = ((Pipe.cards w st).1, (Pipe.cards w st).2) :=
  cards_loaded w _ _ (cards_memo_after w st)

theorem phaseReq_injective :
    Function.Injective (fun s : String => Req.get ("/phases/" ++ s ++ ".json")) := by
  intro x y h
  simp only [Req.get.injEq] at h
  have hd : ("/phases/" ++ x ++ ".json").data = ("/phases/" ++ y ++ ".json").data := by
    rw [h]
  simp only [String.data_append] at hd
  have h2 := List.append_cancel_left (List.append_cancel_right hd)
  cases x
  cases y
  simp_all

theorem populate_keys (q : PVal) :
    ∀ (F : List Field) (c : Dict), dmem (populate c F) q = true →
      dmem c q = true ∨ ∃ f ∈ F, f.label = q ∨ f.id = q
  | [], _, h => Or.inl (by simpa [populate] using h)
  | f :: fs, c, h => by
      have h' : dmem (populate (dinsert (dinsert c f.label f.id) f.id f.label) fs) q = true := by
        simpa [populate] using h
      rcases populate_keys q fs _ h' with h2 | h2
      · rcases (dmem_dinsert_iff _ _ _ _).mp h2 with h3 | h3
        · exact Or.inr ⟨f, by simp, Or.inr h3.symm⟩
        · rcases (dmem_dinsert_iff _ _ _ _).mp h3 with h4 | h4
          · exact Or.inr ⟨f, by simp, Or.inl h4.symm⟩
          · exact Or.inl h4
      · rcases h2 with ⟨g, hg, hgq⟩
        exact Or.inr ⟨g, List.mem_cons_of_mem f hg, hgq⟩

theorem pipe_card_values_monotone (w : World) (st : Pipe) (i j : Nat) (q : PVal)
    (h : dmem st.fieldCache q = true) :
    dmem (Pipe.card_values w st i j).2.fieldCache q = true := by
  cases hj : (Pipe.phase_cards w st i).1[j]? with
  | none =>
      have heq : Pipe.card_values w st i j = ([], (Pipe.phase_cards w st i).2) := by
        simp [Pipe.card_values, hj]
      rw [heq]
      show dmem (Pipe.phase_cards w st i).2.fieldCache q = true
      rw [phase_cards_fieldCache w st i]
      exact h
  | some c =>
      cases hv : c.valuesMemo with
      | some d =>
          have heq : Pipe.card_values w st i j = (d, (Pipe.phase_cards w st i).2) := by
            simp [Pipe.card_values, hj, hv]
          rw [heq]
          show dmem (Pipe.phase_cards w st i).2.fieldCache q = true
          rw [phase_cards_fieldCache w st i]
          exact h
      | none =>
          have heq : Pipe.card_values w st i j =
              ((Card.values_core w (Pipe.phase_cards w st i).2 c.data).1,
               setCard (Card.values_core w (Pipe.phase_cards w st i).2 c.data).2 i j
                 { c with valuesMemo := some (Card.values_core w (Pipe.phase_cards w st i).2 c.data).1 }) := by
            simp [Pipe.card_values, hj, hv]
          rw [heq]
          show dmem (setCard (Card.values_core w (Pipe.phase_cards w st i).2 c.data).2 i j
            { c with valuesMemo := some (Card.values_core w (Pipe.phase_cards w st i).2 c.data).1 }).fieldCache q = true
          rw [setCard_fieldCache]
          exact values_core_monotone w (Pipe.phase_cards w st i).2 c.data q
            (by rw [phase_cards_fieldCache w st i]; exact h)

theorem valStep_unres (w : World) (st : Pipe) (phs : List Phase) (acc : Dict × Pipe)
    (fv : PVal × PVal)
    (hl0 : acc.2.phasesMemo = some phs)
    (hkeys : ∀ q, dmem acc.2.fieldCache q = true →
      dmem st.fieldCache q = true ∨ ∃ f ∈ allFields phs, f.label = q ∨ f.id = q)
    (hu1 : dmem st.fieldCache fv.1 = false)
    (hu2 : ∀ f ∈ allFields phs, ¬ f.label = fv.1 ∧ ¬ f.id = fv.1) :
    valStep w acc fv = (dinsert acc.1 PVal.none fv.2, (Pipe.get_field_label_by_id w acc.2 fv.1).2) ∧
    (Pipe.get_field_label_by_id w acc.2 fv.1).2.phasesMemo = some phs ∧
    (∀ q, dmem (Pipe.get_field_label_by_id w acc.2 fv.1).2.fieldCache q = true →
      dmem st.fieldCache q = true ∨ ∃ f ∈ allFields phs, f.label = q ∨ f.id = q) := by
  have hmem : dmem acc.2.fieldCache fv.1 = false := by
    cases hb : dmem acc.2.fieldCache fv.1 with
    | false => rfl
    | true =>
        rcases hkeys fv.1 hb with h2 | ⟨f, hf, hfq⟩
        · rw [hu1] at h2
          exact absurd h2 (by simp)
        · rcases hfq with hfq | hfq
          · exact absurd hfq (hu2 f hf).1
          · exact absurd hfq (hu2 f hf).2
  have hget : dget acc.2.fieldCache fv.1 = Option.none := dget_of_not_dmem _ _ hmem
  have hscan := scanById_not_found fv.1 (allFields phs) acc.2.fieldCache
    (fun f hf => (hu2 f hf).2)
  have hlook := lookupId_loaded_miss w acc.2 phs fv.1 hl0 hget
  refine ⟨?_, ?_, ?_⟩
  · show (dinsert acc.1 (Pipe.get_field_label_by_id w acc.2 fv.1).1 fv.2,
      (Pipe.get_field_label_by_id w acc.2 fv.1).2) = _
    have hv1 : (Pipe.get_field_label_by_id w acc.2 fv.1).1 = PVal.none := by
      rw [hlook, hscan]
    rw [hv1]
  · rw [hlook]
    exact hl0
  · intro q hq
    rw [hlook] at hq
    have hq2 : dmem (scanById fv.1 (allFields phs) acc.2.fieldCache).2 q = true := hq
    rcases scanById_keys fv.1 q (allFields phs) acc.2.fieldCache hq2 with h2 | h2
    · exact hkeys q h2
    · exact Or.inr h2

theorem values_fold_unres (w : World) (st : Pipe) (phs : List Phase) :
    ∀ (ps : List (PVal × PVal)) (acc : Dict × Pipe),
      (∀ fv ∈ ps, dmem st.fieldCache fv.1 = false ∧
        ∀ f ∈ allFields phs, ¬ f.label = fv.1 ∧ ¬ f.id = fv.1) →
      acc.2.phasesMemo = some phs →
      (∀ q, dmem acc.2.fieldCache q = true →
        dmem st.fieldCache q = true ∨ ∃ f ∈ allFields phs, f.label = q ∨ f.id = q) →
      (∀ q, dmem acc.1 q = true → q = PVal.none) →
      (ps.foldl (valStep w) acc).2.phasesMemo = some phs ∧
      (∀ q, dmem (ps.foldl (valStep w) acc).2.fieldCache q = true →
        dmem st.fieldCache q = true ∨ ∃ f ∈ allFields phs, f.label = q ∨ f.id = q) ∧
      (∀ q, dmem (ps.foldl (valStep w) acc).1 q = true → q = PVal.none)
  | [], _, _, h1, h2, h3 => ⟨h1, h2, h3⟩
  | fv :: ps, acc, hps, h1, h2, h3 => by
      rcases valStep_unres w st phs acc fv h1 h2 (hps fv (by simp)).1 (hps fv (by simp)).2
        with ⟨hstep, hm, hk⟩
      rw [List.foldl_cons, hstep]
      refine values_fold_unres w st phs ps _ (fun x hx => hps x (List.mem_cons_of_mem fv hx))
        hm hk ?_
      intro q hq
      rcases (dmem_dinsert_iff _ _ _ _).mp hq with hq2 | hq2
      · exact hq2
      · exact h3 q hq2

/-!  The claim theorems. -/

/-- C1: for every pipe state in which the queried label is not yet a
field-cache key (in particular every freshly constructed `Pipe`, whose
cache starts empty) and whose phases expose that label in some field
list, `get_field_id_by_label` and `get_field_label_by_id` are inverses:
resolving the label to an id and resolving that id back yields the
original label. -/
theorem field_lookup_roundtrip (w : World) (st : Pipe) (L : PVal)
    (hmem : dmem st.fieldCache L = false)
    (hlab : ∃ f ∈ allFields (Pipe.phases w st).1, f.label = L) :
    (Pipe.get_field_label_by_id w (Pipe.get_field_id_by_label w st L).2
      (Pipe.get_field_id_by_label w st L).1).1 = L := by
  have hget : dget st.fieldCache L = Option.none := dget_of_not_dmem _ _ hmem
  rcases scanByLabel_found L (allFields (Pipe.phases w st).1)
    (Pipe.phases w st).2.fieldCache hlab with ⟨m, hmF, hml, hr, hc⟩
  rw [lookupLabel_miss w st L hget]
  have h2 := lookupId_hit w
    { (Pipe.phases w st).2 with
        fieldCache :=
          (scanByLabel L (allFields (Pipe.phases w st).1) (Pipe.phases w st).2.fieldCache).2 }
    ((scanByLabel L (allFields (Pipe.phases w st).1) (Pipe.phases w st).2.fieldCache).1) L
    (by rw [hr]; exact hc)
  simp [h2]

theorem field_lookup_roundtrip_witness :
    dmem pipe0.fieldCache (PVal.s "B") = false ∧
    (∃ f ∈ allFields (Pipe.phases wDup pipe0).1, f.label = PVal.s "B") ∧
    (Pipe.get_field_label_by_id wDup (Pipe.get_field_id_by_label wDup pipe0 (PVal.s "B")).2
      (Pipe.get_field_id_by_label wDup pipe0 (PVal.s "B")).1).1 = PVal.s "B" :=
  ⟨by decide, by decide,
   field_lookup_roundtrip wDup pipe0 (PVal.s "B") (by decide) (by decide)⟩

/-- C2: a second access to `pipe.phases`, `pipe.cards`,
`pipe.phases[i].cards` or `pipe.phases[i].cards[j].values` returns the
same value as the first access and leaves the whole state — including
the request log — unchanged, so it performs no additional transport
call; moreover, starting from a fresh pipe with distinct phase ids, two
accesses to `phases` put exactly one GET per phase id in the log. -/
theorem memoized_access_single_fetch (w : World) (st : Pipe) (i j : Nat) :
    (Pipe.phases w (Pipe.phases w st).2 = ((Pipe.phases w st).1, (Pipe.phases w st).2)) ∧
    (Pipe.cards w (Pipe.cards w st).2 = ((Pipe.cards w st).1, (Pipe.cards w st).2)) ∧
    (Pipe.phase_cards w (Pipe.phase_cards w st i).2 i =
      ((Pipe.phase_cards w st i).1, (Pipe.phase_cards w st i).2)) ∧
    (Pipe.card_values w (Pipe.card_values w st i j).2 i j =
      ((Pipe.card_values w st i j).1, (Pipe.card_values w st i j).2)) ∧
    (st.phasesMemo = Option.none → st.lru = [] → st.log = [] →
      (st.dataPhases.map pvalStr).Nodup →
      (Pipe.phases w (Pipe.phases w st).2).2.log =
        st.dataPhases.map (fun pid => Req.get ("/phases/" ++ pvalStr pid ++ ".json")) ∧
      ∀ pid ∈ st.dataPhases,
        ((Pipe.phases w (Pipe.phases w st).2).2.log).count
          (Req.get ("/phases/" ++ pvalStr pid ++ ".json")) = 1) := by
  refine ⟨phases_idem w st, cards_idem w st, phase_cards_idem w st i,
    card_values_idem w st i j, ?_⟩
  intro h1 h2 h3 hnd
  have hndp : st.dataPhases.Nodup := List.Nodup.of_map _ hnd
  have hlog : (Pipe.phases w st).2.log =
      st.dataPhases.map (fun pid => Req.get ("/phases/" ++ pvalStr pid ++ ".json")) := by
    rw [phases_fresh_log w st h1 h2 hndp, h3]
    simp
  have hlog2 : (Pipe.phases w (Pipe.phases w st).2).2.log =
      st.dataPhases.map (fun pid => Req.get ("/phases/" ++ pvalStr pid ++ ".json")) := by
    rw [phases_idem w st]
    exact hlog
  refine ⟨hlog2, ?_⟩
  intro pid hpid
  rw [hlog2]
  have hmm : st.dataPhases.map (fun pid => Req.get ("/phases/" ++ pvalStr pid ++ ".json")) =
      (st.dataPhases.map pvalStr).map (fun s => Req.get ("/phases/" ++ s ++ ".json")) := by
    rw [List.map_map]
    simp [Function.comp]
  rw [hmm]
  exact List.count_eq_one_of_mem (hnd.map phaseReq_injective)
    (List.mem_map_of_mem _ (List.mem_map_of_mem _ hpid))

theorem memoized_access_single_fetch_witness :
    ((([PVal.n 1, PVal.n 2].map pvalStr).Nodup) ∧
     (Pipe.phases wDup (Pipe.phases wDup (freshPipe (PVal.n 5) [PVal.n 1, PVal.n 2])).2).2.log =
       [PVal.n 1, PVal.n 2].map (fun pid => Req.get ("/phases/" ++ pvalStr pid ++ ".json"))) :=
  ⟨by decide,
   ((memoized_access_single_fetch wDup (freshPipe (PVal.n 5) [PVal.n 1, PVal.n 2]) 0 0).2.2.2.2
     rfl rfl rfl (by decide)).1⟩

/-- C3: the `values` mapping merges the field values of all historical
phase-detail records first (in record order) and then overwrites with
the current-phase field values: whenever the ids involved resolve
through the field cache, a historical and a current field value resolve
to the same label, and the current-phase values resolving to that label
carry value `v`, the mapping stores `v` — the current phase wins. -/
theorem card_values_current_phase_wins (w : World) (st : Pipe) (cd : CardData) (ℓ v : PVal)
    (hall : ∀ fv ∈ histFieldValues cd ++ cd.current_phase_detail.field_values,
      (dget st.fieldCache fv.1).isSome = true)
    (_hhist : ∃ fv ∈ histFieldValues cd, (dget st.fieldCache fv.1).getD PVal.none = ℓ)
    (hcur : ∃ fv ∈ cd.current_phase_detail.field_values,
      (dget st.fieldCache fv.1).getD PVal.none = ℓ)
    (hagr : ∀ fv ∈ cd.current_phase_detail.field_values,
      (dget st.fieldCache fv.1).getD PVal.none = ℓ → fv.2 = v) :
    dget (Card.values_core w st cd).1 ℓ = some v := by
  rw [values_core_eq w st cd, List.foldl_append]
  rw [values_fold_cached w st _ _ (fun fv hfv => hall fv (List.mem_append_left _ hfv))]
  rw [values_fold_cached w st _ _ (fun fv hfv => hall fv (List.mem_append_right _ hfv))]
  exact dget_insfold_agree (fun x => (dget st.fieldCache x).getD PVal.none) _ _ ℓ v hcur hagr

theorem card_values_current_phase_wins_witness :
    ((∀ fv ∈ histFieldValues cardOldNew ++ cardOldNew.current_phase_detail.field_values,
        (dget pipeCached1.fieldCache fv.1).isSome = true) ∧
     dget (Card.values_core wDup pipeCached1 cardOldNew).1 (PVal.s "X") =
       some (PVal.s "new")) :=
  ⟨by decide,
   card_values_current_phase_wins wDup pipeCached1 cardOldNew (PVal.s "X") (PVal.s "new")
     (by decide) (by decide) (by decide) (by decide)⟩

/-- C4: a label that is absent from every phase field list (and not
already a cache key) makes `get_field_id_by_label` return the absent
value `None` — the Python function falls off its loops instead of
raising — after exactly one complete scan over all phases: the final
cache is the full population of both directions of every field in visit
order; symmetrically `get_field_label_by_id` returns `None` for an id
found in no phase. -/
theorem field_lookup_miss_returns_none (w : World) (st : Pipe) (L I : PVal)
    (hmemL : dmem st.fieldCache L = false)
    (hnoL : ∀ f ∈ allFields (Pipe.phases w st).1, ¬ f.label = L)
    (hmemI : dmem st.fieldCache I = false)
    (hnoI : ∀ f ∈ allFields (Pipe.phases w st).1, ¬ f.id = I) :
    (Pipe.get_field_id_by_label w st L).1 = PVal.none ∧
    (Pipe.get_field_id_by_label w st L).2.fieldCache =
      populate st.fieldCache (allFields (Pipe.phases w st).1) ∧
    (Pipe.get_field_label_by_id w st I).1 = PVal.none ∧
    (Pipe.get_field_label_by_id w st I).2.fieldCache =
      populate st.fieldCache (allFields (Pipe.phases w st).1) := by
  have hgetL : dget st.fieldCache L = Option.none := dget_of_not_dmem _ _ hmemL
  have hgetI : dget st.fieldCache I = Option.none := dget_of_not_dmem _ _ hmemI
  have hsL := scanByLabel_not_found L (allFields (Pipe.phases w st).1)
    (Pipe.phases w st).2.fieldCache hnoL
  have hsI := scanById_not_found I (allFields (Pipe.phases w st).1)
    (Pipe.phases w st).2.fieldCache hnoI
  rw [lookupLabel_miss w st L hgetL, lookupId_miss w st I hgetI, hsL, hsI,
    (phases_state w st).1]
  exact ⟨rfl, rfl, rfl, rfl⟩

theorem field_lookup_miss_returns_none_witness :
    dmem pipe0.fieldCache (PVal.s "Z") = false ∧
    (Pipe.get_field_id_by_label wDup pipe0 (PVal.s "Z")).1 = PVal.none ∧
    (Pipe.get_field_label_by_id wDup pipe0 (PVal.n 7)).1 = PVal.none :=
  ⟨by decide,
   (field_lookup_miss_returns_none wDup pipe0 (PVal.s "Z") (PVal.n 7)
     (by decide) (by decide) (by decide) (by decide)).1,
   (field_lookup_miss_returns_none wDup pipe0 (PVal.s "Z") (PVal.n 7)
     (by decide) (by decide) (by decide) (by decide)).2.2.1⟩

/-- C5: with every input label resolvable from the field cache,
`create_card` resolves each label through `get_field_id_by_label`,
appends exactly one POST to `/pipes/{pipe_id}/create_card.json` to the
log — whose payload carries the card title and one `{field_id, value}`
entry per input pair, in order — and returns a `Card` whose identifier
is the "id" of the response to that payload. -/
theorem create_card_request_spec (w : World) (st : Pipe) (t : PVal)
    (values : List (PVal × PVal))
    (hall : ∀ kv ∈ values, (dget st.fieldCache kv.1).isSome = true) :
    Pipe.create_card w st t values =
      ({ identifier := (w.createCardResp { title := t, field_values := values.map (fun kv => ((dget st.fieldCache kv.1).getD PVal.none, kv.2)) }).id,
         data := w.createCardResp { title := t, field_values := values.map (fun kv => ((dget st.fieldCache kv.1).getD PVal.none, kv.2)) },
         valuesMemo := Option.none },
       { st with log := st.log ++ [Req.post ("/pipes/" ++ pvalStr st.id ++ "/create_card.json") { title := t, field_values := values.map (fun kv => ((dget st.fieldCache kv.1).getD PVal.none, kv.2)) }] }) := by
  simp [Pipe.create_card, create_fold_cached w st values [] hall]

theorem create_card_request_spec_witness :
    ((∀ kv ∈ [(PVal.s "Status", PVal.s "Done")],
        (dget pipeStatus.fieldCache kv.1).isSome = true) ∧
     (Pipe.create_card wDup pipeStatus (PVal.s "T") [(PVal.s "Status", PVal.s "Done")]).2.log =
       [Req.post "/pipes/5/create_card.json"
         { title := PVal.s "T", field_values := [(PVal.n 42, PVal.s "Done")] }]) := by
  refine ⟨by decide, ?_⟩
  rw [create_card_request_spec wDup pipeStatus (PVal.s "T")
    [(PVal.s "Status", PVal.s "Done")] (by decide)]
  decide

/-- C6: a transport response with an HTTP error status (4xx or 5xx, the
statuses `raise_for_status` raises on) makes `http_request` fail with
exactly that status, and an operation built on it such as `get_pipe`
propagates the error: it returns `Except.error` and no pipe object —
partial or otherwise — is ever produced. -/
theorem http_error_propagates (w : HttpWorld) (c : PipefyClient) (ep : String) (pid : PVal)
    (h1 : 400 ≤ (w (get_url c ep) (headers c)).status)
    (h2 : (w (get_url c ep) (headers c)).status < 600)
    (h3 : 400 ≤ (w (get_url c ("/pipes/" ++ pvalStr pid ++ ".json")) (headers c)).status)
    (h4 : (w (get_url c ("/pipes/" ++ pvalStr pid ++ ".json")) (headers c)).status < 600) :
    http_request w c ep = Except.error (w (get_url c ep) (headers c)).status ∧
    get_pipe w c pid =
      Except.error (w (get_url c ("/pipes/" ++ pvalStr pid ++ ".json")) (headers c)).status ∧
    ∀ p : PipeObj, ¬ get_pipe w c pid = Except.ok p := by
  refine ⟨?_, ?_, ?_⟩
  · simp [http_request, raise_for_status, h1, h2]
  · simp [get_pipe, http_request, raise_for_status, Except.map, h3, h4]
  · intro p hp
    simp [get_pipe, http_request, raise_for_status, Except.map, h3, h4] at hp

theorem http_error_propagates_witness :
    (400 ≤ (hw500 (get_url client0 "/x") (headers client0)).status) ∧
    get_pipe hw500 client0 (PVal.n 1) = Except.error 500 :=
  ⟨by decide,
   (http_error_propagates hw500 client0 "/x" (PVal.n 1)
     (by decide) (by decide) (by decide) (by decide)).2.1⟩

/-- C7 counterexample: a present cache key is not stable under later
lookups.  With fields labelled "A" (id 1), "A" (id 2), "B" (id 3), the
first lookup of "A" stops at the first field and caches "A" as 1; the
subsequent cache-miss lookup of "B" rescans all fields and silently
rewrites the existing entry to "A" as 2, so a later lookup of "A"
returns 2 instead of the previously cached 1. -/
theorem field_cache_refresh_counterexample :
    (Pipe.get_field_id_by_label wDup pipe0 (PVal.s "A")).1 = PVal.n 1 ∧
    dmem (Pipe.get_field_id_by_label wDup pipe0 (PVal.s "A")).2.fieldCache (PVal.s "A") = true ∧
    dget (Pipe.get_field_id_by_label wDup pipe0 (PVal.s "A")).2.fieldCache (PVal.s "A") =
      some (PVal.n 1) ∧
    (Pipe.get_field_id_by_label wDup
        (Pipe.get_field_id_by_label wDup pipe0 (PVal.s "A")).2 (PVal.s "B")).1 = PVal.n 3 ∧
    dget (Pipe.get_field_id_by_label wDup
        (Pipe.get_field_id_by_label wDup pipe0 (PVal.s "A")).2 (PVal.s "B")).2.fieldCache
      (PVal.s "A") = some (PVal.n 2) ∧
    (Pipe.get_field_id_by_label wDup
        (Pipe.get_field_id_by_label wDup
          (Pipe.get_field_id_by_label wDup pipe0 (PVal.s "A")).2 (PVal.s "B")).2
        (PVal.s "A")).1 = PVal.n 2 := by
  refine ⟨by decide, by decide, by decide, by decide, by decide, by decide⟩

/-- C7 amended: the field cache never loses a key — both lookups,
`create_card`, `Card.values` and every property access are monotone on
cache membership, and the pure property accesses do not touch the cache
at all — and a lookup of a key that is already cached returns the
cached value with the state entirely unchanged (no transport, no
recomputation).  However a cache miss for a different key rescans the
memoized field lists and may overwrite existing entries (see the
counterexample); entries are never refreshed from the network. -/
theorem field_cache_grows_amended (w : World) (st : Pipe) (q k v x t : PVal)
    (vs : List (PVal × PVal)) (cd : CardData) (i j : Nat)
    (hq : dmem st.fieldCache q = true)
    (hk : dget st.fieldCache k = some v) :
    Pipe.get_field_id_by_label w st k = (v, st) ∧
    Pipe.get_field_label_by_id w st k = (v, st) ∧
    dmem (Pipe.get_field_id_by_label w st x).2.fieldCache q = true ∧
    dmem (Pipe.get_field_label_by_id w st x).2.fieldCache q = true ∧
    dmem (Pipe.create_card w st t vs).2.fieldCache q = true ∧
    dmem (Card.values_core w st cd).2.fieldCache q = true ∧
    dmem (Pipe.card_values w st i j).2.fieldCache q = true ∧
    (Pipe.phases w st).2.fieldCache = st.fieldCache ∧
    (Pipe.cards w st).2.fieldCache = st.fieldCache ∧
    (Pipe.phase_cards w st i).2.fieldCache = st.fieldCache :=
  ⟨lookupLabel_hit w st k v hk, lookupId_hit w st k v hk,
   lookupLabel_monotone w st x q hq, lookupId_monotone w st x q hq,
   create_card_monotone w st t vs q hq, values_core_monotone w st cd q hq,
   pipe_card_values_monotone w st i j q hq, (phases_state w st).1,
   cards_fieldCache w st, phase_cards_fieldCache w st i⟩

theorem field_cache_grows_amended_witness :
    dmem pipeStatus.fieldCache (PVal.s "Status") = true ∧
    dget pipeStatus.fieldCache (PVal.s "Status") = some (PVal.n 42) ∧
    Pipe.get_field_id_by_label wDup pipeStatus (PVal.s "Status") = (PVal.n 42, pipeStatus) :=
  ⟨by decide, by decide,
   (field_cache_grows_amended wDup pipeStatus (PVal.s "Status") (PVal.s "Status") (PVal.n 42)
     (PVal.s "x") (PVal.s "T") [] emptyCardData 0 0 (by decide) (by decide)).1⟩

/-- C8: a `create_card` input pair whose label is not a cache key and
occurs in no phase field list (neither as a label nor as an id) does
not raise on the lookup miss: the silent `None` propagates into the
POSTed payload, which contains the entry `(None, value)` for that
pair. -/
theorem create_card_silent_miss_payload (w : World) (st : Pipe) (phs : List Phase)
    (t k v : PVal) (l1 l2 : List (PVal × PVal))
    (hl : st.phasesMemo = some phs)
    (hkmem : dmem st.fieldCache k = false)
    (hkf : ∀ f ∈ allFields phs, ¬ f.label = k ∧ ¬ f.id = k) :
    ∃ p : CreateCardPayload,
      ((Pipe.create_card w st t (l1 ++ (k, v) :: l2)).2.log).getLast? =
        some (Req.post ("/pipes/" ++ pvalStr st.id ++ "/create_card.json") p) ∧
      p.title = t ∧ (PVal.none, v) ∈ p.field_values := by
  have step : ∀ (b : List (PVal × PVal) × Pipe) (kv : PVal × PVal),
      (b.2.phasesMemo = some phs ∧ dmem b.2.fieldCache k = false) →
      ((createStep w b kv).2.phasesMemo = some phs ∧
        dmem (createStep w b kv).2.fieldCache k = false) := by
    rintro b kv ⟨hb1, hb2⟩
    constructor
    · rcases lookupLabel_loaded_shape w b.2 phs kv.1 hb1 with ⟨c2, hc2⟩
      show (Pipe.get_field_id_by_label w b.2 kv.1).2.phasesMemo = some phs
      rw [hc2]
      exact hb1
    · show dmem (Pipe.get_field_id_by_label w b.2 kv.1).2.fieldCache k = false
      cases hbool : dmem (Pipe.get_field_id_by_label w b.2 kv.1).2.fieldCache k with
      | false => rfl
      | true =>
          exfalso
          rcases lookupLabel_loaded_keys w b.2 phs kv.1 k hb1 hbool with h2 | ⟨f, hf, hfq⟩
          · rw [hb2] at h2
            exact absurd h2 (by simp)
          · rcases hfq with hfq | hfq
            · exact absurd hfq (hkf f hf).1
            · exact absurd hfq (hkf f hf).2
  obtain ⟨B, hB⟩ : ∃ B : List (PVal × PVal) × Pipe,
      l1.foldl (createStep w) ([], st) = B := ⟨_, rfl⟩
  have hP : B.2.phasesMemo = some phs ∧ dmem B.2.fieldCache k = false := by
    rw [← hB]
    exact foldl_preserves _ (createStep w) step l1 ([], st) ⟨hl, hkmem⟩
  have hmiss : dget B.2.fieldCache k = Option.none := dget_of_not_dmem _ _ hP.2
  have hklookup : (Pipe.get_field_id_by_label w B.2 k).1 = PVal.none := by
    rw [lookupLabel_loaded_miss w B.2 phs k hP.1 hmiss,
      scanByLabel_not_found k (allFields phs) B.2.fieldCache (fun f hf => (hkf f hf).1)]
  have hkstep : createStep w B (k, v) =
      (B.1 ++ [(PVal.none, v)], (Pipe.get_field_id_by_label w B.2 k).2) := by
    show (B.1 ++ [((Pipe.get_field_id_by_label w B.2 k).1, v)],
      (Pipe.get_field_id_by_label w B.2 k).2) = _
    rw [hklookup]
  have hmem2 : (PVal.none, v) ∈ ((l1 ++ (k, v) :: l2).foldl (createStep w) ([], st)).1 := by
    rw [List.foldl_append, List.foldl_cons, hB, hkstep]
    exact foldl_preserves (fun acc : List (PVal × PVal) × Pipe => (PVal.none, v) ∈ acc.1)
      (createStep w) (fun b kv hb => List.mem_append_left _ hb) l2 _
      (List.mem_append_right _ (by simp))
  refine ⟨{ title := t,
            field_values := ((l1 ++ (k, v) :: l2).foldl (createStep w) ([], st)).1 },
    ?_, rfl, hmem2⟩
  simp [Pipe.create_card, List.getLast?_concat]

theorem create_card_silent_miss_payload_witness :
    dmem pipeLoaded.fieldCache (PVal.s "Q") = false ∧
    (∃ p : CreateCardPayload,
      ((Pipe.create_card wDup pipeLoaded (PVal.s "T")
          ([] ++ (PVal.s "Q", PVal.s "V") :: [])).2.log).getLast? =
        some (Req.post ("/pipes/" ++ pvalStr pipeLoaded.id ++ "/create_card.json") p) ∧
      p.title = PVal.s "T" ∧ (PVal.none, PVal.s "V") ∈ p.field_values) :=
  ⟨by decide,
   create_card_silent_miss_payload wDup pipeLoaded [phX] (PVal.s "T") (PVal.s "Q")
     (PVal.s "V") [] [] rfl (by decide) (by decide)⟩

/-- C9: the field cache is one dict holding both directions under the
same key space.  In `wCol` one field has the id "L" (label "M") and a
later field has the label "L" (id 9): after a first lookup populates
the cache, the later-inserted label binding for the key "L" has
overwritten the id binding, and `get_field_label_by_id` applied to "L"
answers 9 from the cache — an id, a value of the opposite direction —
although the field whose id is "L" has label "M" and no field has 9 as
a label. -/
theorem field_cache_direction_collision :
    (Pipe.get_field_label_by_id wCol
      (Pipe.get_field_label_by_id wCol pipe0 (PVal.n 9)).2 (PVal.s "L")).1 = PVal.n 9 ∧
    (∃ f ∈ allFields (Pipe.phases wCol pipe0).1, f.id = PVal.n 9) ∧
    (∃ f ∈ allFields (Pipe.phases wCol pipe0).1, f.id = PVal.s "L" ∧ f.label = PVal.s "M") ∧
    (∀ f ∈ allFields (Pipe.phases wCol pipe0).1, ¬ f.label = PVal.n 9) :=
  ⟨by decide, by decide, by decide, by decide⟩

/-- C10: when every field value of a card carries an id that is not a
cache key and occurs in no phase field list (neither as an id nor as a
label), every resolution yields the absent label `None`, so all such
values collapse under the single dict key `None`, and the value stored
there is the one of the last field value processed — the current phase
being processed last. -/
theorem card_values_unresolved_collapse (w : World) (st : Pipe) (phs : List Phase)
    (cd : CardData) (i0 v0 : PVal) (l2 : List (PVal × PVal))
    (hl : st.phasesMemo = some phs)
    (hall : ∀ fv ∈ histFieldValues cd ++ cd.current_phase_detail.field_values,
      dmem st.fieldCache fv.1 = false ∧
      ∀ f ∈ allFields phs, ¬ f.label = fv.1 ∧ ¬ f.id = fv.1)
    (hlast : cd.current_phase_detail.field_values = l2 ++ [(i0, v0)]) :
    dget (Card.values_core w st cd).1 PVal.none = some v0 ∧
    ∀ q : PVal, dmem (Card.values_core w st cd).1 q = true → q = PVal.none := by
  have hallps : ∀ fv ∈ histFieldValues cd ++ l2,
      dmem st.fieldCache fv.1 = false ∧
      ∀ f ∈ allFields phs, ¬ f.label = fv.1 ∧ ¬ f.id = fv.1 := by
    intro fv hfv
    rcases List.mem_append.mp hfv with hfv | hfv
    · exact hall fv (List.mem_append_left _ hfv)
    · exact hall fv (List.mem_append_right _ (by rw [hlast]; exact List.mem_append_left _ hfv))
  obtain ⟨B, hB⟩ : ∃ B : Dict × Pipe,
      (histFieldValues cd ++ l2).foldl (valStep w) ([], st) = B := ⟨_, rfl⟩
  have hBP := values_fold_unres w st phs (histFieldValues cd ++ l2) ([], st) hallps hl
    (fun q hq => Or.inl hq) (fun q hq => by simp [dmem, dget] at hq)
  rw [hB] at hBP
  have hfinal : Card.values_core w st cd = valStep w B (i0, v0) := by
    rw [values_core_eq w st cd, hlast, ← List.append_assoc, List.foldl_append, hB]
    simp
  have hu := hall (i0, v0) (List.mem_append_right _ (by rw [hlast]; simp))
  rcases valStep_unres w st phs B (i0, v0) hBP.1 hBP.2.1 hu.1 hu.2 with ⟨hstep, _, _⟩
  rw [hfinal, hstep]
  constructor
  · exact dget_dinsert_self _ _ _
  · intro q hq
    rcases (dmem_dinsert_iff _ _ _ _).mp hq with hq2 | hq2
    · exact hq2
    · exact hBP.2.2 q hq2

theorem card_values_unresolved_collapse_witness :
    ((∀ fv ∈ histFieldValues cardOrphan ++ cardOrphan.current_phase_detail.field_values,
        dmem pipeLoaded.fieldCache fv.1 = false ∧
        ∀ f ∈ allFields [phX], ¬ f.label = fv.1 ∧ ¬ f.id = fv.1) ∧
     dget (Card.values_core wDup pipeLoaded cardOrphan).1 PVal.none = some (PVal.s "c1")) :=
  ⟨by decide,
   (card_values_unresolved_collapse wDup pipeLoaded [phX] cardOrphan (PVal.n 99)
     (PVal.s "c1") [] rfl (by decide) (by decide)).1⟩

end Pipefy
